import Mathlib

/-!
Shallow embedding of the process-level locking core of the repository:
`dvc/rwlock.py` (path-granular read/write coordination persisted in a JSON
document) and `dvc/lock.py` (the exclusive gate built on `zc.lockfile`).

The persisted rwlock document is a JSON object mapping a path string to an
object with optional integer field `writer` and optional list-of-integer
field `readers`.  We embed such an object as an association list of
`String × PathLockEntry`, where each optional field of the Python dict is an
`Option`.  Python dict indexing that can raise `KeyError`, and the
`LockError` raised by the conflict checks, are embedded with `Except`.
Python truthiness of the fields (`if writer:` / `if readers:`) is embedded
explicitly: an integer is truthy iff nonzero, a list iff nonempty, an
absent field (`dict.get` returning `None`) is falsy.
-/

namespace Dvc

/-- Embedding of one value of the rwlock document: a Python dict that may
carry a `writer` key (an int) and a `readers` key (a list of ints).  `none`
means the key is absent from the dict. -/
structure PathLockEntry where
  writer : Option Int := none
  readers : Option (List Int) := none
deriving DecidableEq, Repr

/-- Embedding of the in-memory rwlock document: a Python dict from path to
entry, as an association list in insertion order. -/
abbrev LockState := List (String × PathLockEntry)

/-- Errors surfaced by the embedded Python code: `LockError` raised by
`_check_no_writer` (carrying the busy path and its writer pid),
`LockError` raised by `_check_no_readers` (carrying the busy path and its
reader pids), and `KeyError` from indexing a dict with an absent key. -/
inductive RwError where
  | lockBusyWriter (path : String) (writer : Int)
  | lockBusyReaders (path : String) (readers : List Int)
  | keyError (key : String)
deriving DecidableEq, Repr

/-- `path in lock` / `lock[path]` read access: first binding of the key. -/
def lookup : LockState → String → Option PathLockEntry
  | [], _ => none
  | (q, e) :: rest, p => if q = p then some e else lookup rest p

/-- `lock[path] = entry`: replace the binding if the key is present
(keeping its position), otherwise append it, as a Python dict does. -/
def setKey : LockState → String → PathLockEntry → LockState
  | [], p, e => [(p, e)]
  | (q, d) :: rest, p, e =>
      if q = p then (q, e) :: rest else (q, d) :: setKey rest p e

/-- `del lock[path]`: drop the binding of the key. -/
def delKey : LockState → String → LockState
  | [], _ => []
  | (q, d) :: rest, p => if q = p then rest else (q, d) :: delKey rest p

/-- `list.remove(x)`: drop the first occurrence of `x` (callers guard with
`x in list`, so the raising case never arises in the embedded code). -/
def removeFirst : List Int → Int → List Int
  | [], _ => []
  | x :: rest, a => if x = a then rest else x :: removeFirst rest a

/-- Python truthiness of `dict.get("writer")`: `None` and `0` are falsy. -/
def intTruthy : Option Int → Bool
  | none => false
  | some w => w ≠ 0

/-- Python truthiness of `dict.get("readers")`: `None` and `[]` are falsy. -/
def listTruthy : Option (List Int) → Bool
  | none => false
  | some l => ¬ l.isEmpty

/-- `lock[path]` where an absent key raises `KeyError`. -/
def pyIndex (lock : LockState) (path : String) : Except RwError PathLockEntry :=
  match lookup lock path with
  | some e => Except.ok e
  | none => Except.error (RwError.keyError path)

/-- `entry["readers"]` where an absent key raises `KeyError`. -/
def pyReaders (e : PathLockEntry) : Except RwError (List Int) :=
  match e.readers with
  | some l => Except.ok l
  | none => Except.error (RwError.keyError "readers")

/-- `entry["writer"]` where an absent key raises `KeyError`. -/
def pyWriter (e : PathLockEntry) : Except RwError Int :=
  match e.writer with
  | some w => Except.ok w
  | none => Except.error (RwError.keyError "writer")

/-- `not lock[path]` on the entry dict: a Python dict is falsy iff it has
no keys at all. -/
def entryEmpty (e : PathLockEntry) : Bool :=
  e.writer.isNone && e.readers.isNone

/-- Embedding of `_check_no_writer(lock, path)`: reads
`lock[path].get("writer")` and raises `LockError` when it is truthy. -/
def _check_no_writer (lock : LockState) (path : String) : Except RwError Unit := do
  let entry ← pyIndex lock path
  match entry.writer with
  | some w => if w = 0 then Except.ok () else Except.error (RwError.lockBusyWriter path w)
  | none => Except.ok ()

/-- Embedding of `_check_no_readers(lock, path)`: reads
`lock[path].get("readers")` and raises `LockError` when it is truthy. -/
def _check_no_readers (lock : LockState) (path : String) : Except RwError Unit := do
  let entry ← pyIndex lock path
  match entry.readers with
  | some l => if l = [] then Except.ok () else Except.error (RwError.lockBusyReaders path l)
  | none => Except.ok ()

/-- Embedding of `_acquire_read(lock, paths)` with `os.getpid()` passed
explicitly as `pid`.  For each path: when the path is present, check there
is no truthy writer; otherwise bind it to a dict holding an empty readers
list; then append `pid` to `lock[path]["readers"]` (a `KeyError` when the
existing entry has no `readers` key). -/
def _acquire_read : LockState → List String → Int → Except RwError LockState
  | lock, [], _ => Except.ok lock
  | lock, path :: rest, pid => do
      let lock1 ←
        if (lookup lock path).isSome then do
          _check_no_writer lock path
          pure lock
        else
          pure (setKey lock path { writer := none, readers := some [] })
      let entry ← pyIndex lock1 path
      let readers ← pyReaders entry
      let lock2 := setKey lock1 path { entry with readers := some (readers ++ [pid]) }
      _acquire_read lock2 rest pid

/-- Embedding of `_acquire_write(lock, paths)` with `os.getpid()` passed
explicitly as `pid`.  For each path: when the path is present, check there
is no truthy writer and then no truthy readers; in every case replace the
entry outright with a dict holding only `writer = pid`. -/
def _acquire_write : LockState → List String → Int → Except RwError LockState
  | lock, [], _ => Except.ok lock
  | lock, path :: rest, pid => do
      if (lookup lock path).isSome then do
        _check_no_writer lock path
        _check_no_readers lock path
      else
        pure ()
      _acquire_write (setKey lock path { writer := some pid, readers := none }) rest pid

/-- Embedding of `_release_read(lock, paths)` with `os.getpid()` passed
explicitly as `pid`.  Absent paths are skipped; otherwise
`lock[path]["readers"]` is read (a `KeyError` when the entry has no
`readers` key), the first occurrence of `pid` is removed when present, an
emptied `readers` key is deleted, and an entry left with no keys is
deleted. -/
def _release_read : LockState → List String → Int → Except RwError LockState
  | lock, [], _ => Except.ok lock
  | lock, path :: rest, pid =>
      match lookup lock path with
      | none => _release_read lock rest pid
      | some entry => do
          let readers ← pyReaders entry
          let readers1 := if pid ∈ readers then removeFirst readers pid else readers
          let entry1 : PathLockEntry :=
            { entry with readers := if readers1 = [] then none else some readers1 }
          let lock1 := setKey lock path entry1
          let lock2 := if entryEmpty entry1 then delKey lock1 path else lock1
          _release_read lock2 rest pid

/-- Embedding of `_release_write(lock, paths)` with `os.getpid()` passed
explicitly as `pid`.  Absent paths are skipped; otherwise
`lock[path]["writer"]` is read (a `KeyError` when the entry has no
`writer` key), the `writer` key is deleted when it equals `pid`, and an
entry left with no keys is deleted. -/
def _release_write : LockState → List String → Int → Except RwError LockState
  | lock, [], _ => Except.ok lock
  | lock, path :: rest, pid =>
      match lookup lock path with
      | none => _release_write lock rest pid
      | some entry => do
          let writer ← pyWriter entry
          let entry1 : PathLockEntry :=
            if writer = pid then { entry with writer := none } else entry
          let lock1 := setKey lock path entry1
          let lock2 := if entryEmpty entry1 then delKey lock1 path else lock1
          _release_write lock2 rest pid

/-- The acquire body of the `rwlock` context manager: one load/mutate/save
cycle running `_acquire_read(lock, read)` then `_acquire_write(lock, write)`
on the loaded document. -/
def rwlockAcquire (lock : LockState) (read write : List String) (pid : Int) :
    Except RwError LockState := do
  let lock1 ← _acquire_read lock read pid
  _acquire_write lock1 write pid

/-- The release body of the `rwlock` context manager: one load/mutate/save
cycle running `_release_write(lock, write)` then `_release_read(lock, read)`
on the loaded document. -/
def rwlockRelease (lock : LockState) (read write : List String) (pid : Int) :
    Except RwError LockState := do
  let lock1 ← _release_write lock write pid
  _release_read lock1 read pid

/-- The persisted document after one acquire call.  In `_rwlock` the
`json.dump` that persists the mutated document runs after the `yield`, so
it runs only when the body (`_acquire_read`; `_acquire_write`) exits
normally; when the body raises, the exception propagates through the
generator and the file is left with its prior content. -/
def persistedAfterAcquire (doc : LockState) (read write : List String) (pid : Int) :
    LockState :=
  match rwlockAcquire doc read write pid with
  | Except.ok doc1 => doc1
  | Except.error _ => doc

/-! Embedding of `dvc/lock.py`.  `zc.lockfile.LockFile` is the external
backend; we abstract it as an oracle `att : Nat → Bool` telling whether the
n-th attempt to create the OS-level lock succeeds.  `Lock.lock` tries once,
and on `LockError` sleeps `DEFAULT_TIMEOUT` seconds and tries exactly once
more, letting the second failure propagate. -/

/-- `DEFAULT_TIMEOUT` from `dvc/lock.py`: the fixed delay in seconds. -/
def DEFAULT_TIMEOUT : Nat := 5

/-- `FAILED_TO_LOCK_MESSAGE` from `dvc/lock.py`, verbatim. -/
def FAILED_TO_LOCK_MESSAGE : String :=
  "cannot perform the command because another DVC process seems to be " ++
  "running on this project. If that is not the case, manually remove " ++
  "`.dvc/lock` and try again."

/-- Outcome of one `Lock.lock()` call: how many acquisition attempts were
made, the sleeps (in seconds) performed between them, and on failure the
message of the raised `LockError`. -/
structure LockCallOutcome where
  attempts : Nat
  sleeps : List Nat
  failure : Option String
deriving DecidableEq, Repr

/-- Embedding of `Lock.lock()` over the attempt oracle: `_do_lock` wraps a
`zc.lockfile.LockError` into `LockError(FAILED_TO_LOCK_MESSAGE)`; `lock`
returns on first success, else sleeps `DEFAULT_TIMEOUT` and calls
`_do_lock` a second (final) time. -/
def Lock.lock (att : Nat → Bool) : LockCallOutcome :=
  if att 0 then
    { attempts := 1, sleeps := [], failure := none }
  else if att 1 then
    { attempts := 2, sleeps := [DEFAULT_TIMEOUT], failure := none }
  else
    { attempts := 2, sleeps := [DEFAULT_TIMEOUT],
      failure := some FAILED_TO_LOCK_MESSAGE }

/-! Embedding of the load half of `_rwlock`: `json.load` of the document
file followed by validation against
`SCHEMA = Schema(Optional(str) mapped to dicts with an optional int key
"writer" and an optional list-of-int key "readers")`.  Missing files
(`FileNotFoundError`) and undecodable content (`JSONDecodeError`) are
caught and replaced by the empty dict; the voluptuous validation runs
outside that `try` block, so its `Invalid` errors propagate. -/

/-- A JSON value, as produced by `json.load` (the number fragment is
restricted to integers, the only numbers relevant to the schema). -/
inductive Json where
  | jnull
  | jint (n : Int)
  | jstr (s : String)
  | jarr (elems : List Json)
  | jobj (fields : List (String × Json))

/-- Voluptuous validation of `[int]`: the value must be a list whose
elements are all ints. -/
def validateReaders : Json → Except String (List Int)
  | Json.jarr elems =>
      elems.mapM (fun j =>
        match j with
        | Json.jint n => Except.ok n
        | _ => Except.error "expected int")
  | _ => Except.error "expected a list"

/-- Voluptuous validation of one entry value against the inner schema: the
value must be a dict; key "writer" must map to an int, key "readers" to a
list of ints, and any other key is rejected ("extra keys not allowed"). -/
def validateEntry : Json → Except String PathLockEntry
  | Json.jobj fields =>
      fields.foldlM
        (fun (acc : PathLockEntry) (field : String × Json) =>
          if field.1 = "writer" then
            match field.2 with
            | Json.jint n => Except.ok { acc with writer := some n }
            | _ => Except.error "expected int for dictionary value"
          else if field.1 = "readers" then
            match validateReaders field.2 with
            | Except.ok l => Except.ok { acc with readers := some l }
            | Except.error e => Except.error e
          else
            Except.error "extra keys not allowed")
        { writer := none, readers := none }
  | _ => Except.error "expected a dictionary"

/-- Voluptuous validation of the whole document against `SCHEMA`: the
top-level value must be a dict (its keys are strings by construction of
JSON), each value validated by the inner schema. -/
def validateState : Json → Except String LockState
  | Json.jobj fields =>
      fields.mapM (fun field => do
        let e ← validateEntry field.2
        pure (field.1, e))
  | _ => Except.error "expected a dictionary"

/-- The three relevant conditions of the rwlock document file when
`_rwlock` loads it. -/
inductive RwlockFile where
  | missing
  | unparsable
  | parsed (j : Json)

/-- The load half of `_rwlock`: a missing file or a `JSONDecodeError` is
healed to the empty dict, then the result is validated against the schema
(outside the `try`, so schema failures propagate). -/
def loadRwlockDoc : RwlockFile → Except String LockState
  | RwlockFile.missing => validateState (Json.jobj [])
  | RwlockFile.unparsable => validateState (Json.jobj [])
  | RwlockFile.parsed j => validateState j

/-! Reachability of persisted documents and the entry well-formedness
invariant. -/

/-- Persisted lock documents reachable from the absent/empty document by
acquire and release calls of the `rwlock` context manager.  A call whose
body raises persists nothing (the save runs only at normal generator
exit), so only `Except.ok` outcomes yield new states.  `os.getpid()` is
always positive, hence the `0 < pid` side conditions. -/
inductive Reach : LockState → Prop
  | empty : Reach []
  | acq (s s' : LockState) (read write : List String) (pid : Int) :
      Reach s → 0 < pid → rwlockAcquire s read write pid = Except.ok s' → Reach s'
  | rel (s s' : LockState) (read write : List String) (pid : Int) :
      Reach s → 0 < pid → rwlockRelease s read write pid = Except.ok s' → Reach s'

/-- Well-formedness of one persisted entry: a `writer` key holds a positive
pid and excludes a `readers` key; a `readers` key holds a nonempty list and
excludes a `writer` key; and the entry has at least one key. -/
def WfEntry (e : PathLockEntry) : Prop :=
  (∀ w, e.writer = some w → 0 < w ∧ e.readers = none) ∧
  (∀ l, e.readers = some l → l ≠ [] ∧ e.writer = none) ∧
  ¬(e.writer = none ∧ e.readers = none)

/-- Well-formedness of a document: every binding it holds is well-formed. -/
def Inv (s : LockState) : Prop := ∀ x ∈ s, WfEntry x.2

/-! Basic algebra of `lookup`, `setKey` and `delKey`. -/

@[simp]
theorem ok_bind {α β : Type} (a : α) (f : α → Except RwError β) :
    (Except.ok a : Except RwError α) >>= f = f a := rfl

@[simp]
theorem error_bind {α β : Type} (e : RwError) (f : α → Except RwError β) :
    (Except.error e : Except RwError α) >>= f = Except.error e := rfl

@[simp]
theorem lookup_nil (p : String) : lookup [] p = none := rfl

theorem lookup_cons (k : String) (d : PathLockEntry) (rest : LockState) (p : String) :
    lookup ((k, d) :: rest) p = if k = p then some d else lookup rest p := rfl

theorem lookup_setKey_self (s : LockState) (p : String) (e : PathLockEntry) :
    lookup (setKey s p e) p = some e := by
  induction s with
  | nil => simp [setKey, lookup]
  | cons x rest ih =>
    obtain ⟨k, d⟩ := x
    by_cases hk : k = p
    · simp [setKey, lookup, hk]
    · simp [setKey, lookup, hk, ih]

theorem lookup_setKey_ne (s : LockState) {p q : String} (e : PathLockEntry)
    (hq : q ≠ p) : lookup (setKey s p e) q = lookup s q := by
  induction s with
  | nil => simp [setKey, lookup, Ne.symm hq]
  | cons x rest ih =>
    obtain ⟨k, d⟩ := x
    by_cases hk : k = p
    · subst hk; simp [setKey, lookup, Ne.symm hq]
    · simp [setKey, lookup, hk, ih]

theorem mem_setKey {x : String × PathLockEntry} :
    ∀ {s : LockState} {p : String} {e : PathLockEntry},
      x ∈ setKey s p e → x ∈ s ∨ x = (p, e) := by
  intro s
  induction s with
  | nil => intro p e h; simp [setKey] at h; exact Or.inr h
  | cons y rest ih =>
    intro p e h
    obtain ⟨k, d⟩ := y
    by_cases hk : k = p
    · rw [setKey, if_pos hk] at h
      rcases List.mem_cons.mp h with h1 | h1
      · subst hk; exact Or.inr h1
      · exact Or.inl (List.mem_cons_of_mem _ h1)
    · rw [setKey, if_neg hk] at h
      rcases List.mem_cons.mp h with h1 | h1
      · exact Or.inl (List.mem_cons.mpr (Or.inl h1))
      · rcases ih h1 with h2 | h2
        · exact Or.inl (List.mem_cons_of_mem _ h2)
        · exact Or.inr h2

theorem mem_delKey {x : String × PathLockEntry} :
    ∀ {s : LockState} {p : String}, x ∈ delKey s p → x ∈ s := by
  intro s
  induction s with
  | nil => intro p h; simp [delKey] at h
  | cons y rest ih =>
    intro p h
    obtain ⟨k, d⟩ := y
    by_cases hk : k = p
    · rw [delKey, if_pos hk] at h
      exact List.mem_cons_of_mem _ h
    · rw [delKey, if_neg hk] at h
      rcases List.mem_cons.mp h with h1 | h1
      · exact List.mem_cons.mpr (Or.inl h1)
      · exact List.mem_cons_of_mem _ (ih h1)

theorem lookup_mem : ∀ {s : LockState} {p : String} {e : PathLockEntry},
    lookup s p = some e → (p, e) ∈ s := by
  intro s
  induction s with
  | nil => intro p e h; simp at h
  | cons y rest ih =>
    intro p e h
    obtain ⟨k, d⟩ := y
    rw [lookup_cons] at h
    by_cases hk : k = p
    · rw [if_pos hk] at h
      cases h
      subst hk
      exact List.mem_cons_self _ _
    · rw [if_neg hk] at h
      exact List.mem_cons_of_mem _ (ih h)

theorem setKey_eq_self : ∀ {s : LockState} {p : String} {e : PathLockEntry},
    lookup s p = some e → setKey s p e = s := by
  intro s
  induction s with
  | nil => intro p e h; simp at h
  | cons y rest ih =>
    intro p e h
    obtain ⟨k, d⟩ := y
    rw [lookup_cons] at h
    by_cases hk : k = p
    · rw [if_pos hk] at h
      cases h
      rw [setKey, if_pos hk]
    · rw [if_neg hk] at h
      rw [setKey, if_neg hk, ih h]

theorem setKey_fresh : ∀ {s : LockState} {p : String} (e : PathLockEntry),
    lookup s p = none → setKey s p e = s ++ [(p, e)] := by
  intro s
  induction s with
  | nil => intro p e _; rfl
  | cons y rest ih =>
    intro p e h
    obtain ⟨k, d⟩ := y
    rw [lookup_cons] at h
    by_cases hk : k = p
    · rw [if_pos hk] at h; cases h
    · rw [if_neg hk] at h
      rw [setKey, if_neg hk, ih e h]
      rfl

theorem lookup_append_fresh : ∀ {s : LockState} {p : String} (t : LockState),
    lookup s p = none → lookup (s ++ t) p = lookup t p := by
  intro s
  induction s with
  | nil => intro p t _; rfl
  | cons y rest ih =>
    intro p t h
    obtain ⟨k, d⟩ := y
    rw [lookup_cons] at h
    by_cases hk : k = p
    · rw [if_pos hk] at h; cases h
    · rw [if_neg hk] at h
      rw [List.cons_append, lookup_cons, if_neg hk, ih t h]

theorem setKey_append_fresh :
    ∀ {s : LockState} {p : String} (d e : PathLockEntry) (t : LockState),
      lookup s p = none → setKey (s ++ (p, d) :: t) p e = s ++ (p, e) :: t := by
  intro s
  induction s with
  | nil => intro p d e t _; simp [setKey]
  | cons y rest ih =>
    intro p d e t h
    obtain ⟨k, d'⟩ := y
    rw [lookup_cons] at h
    by_cases hk : k = p
    · rw [if_pos hk] at h; cases h
    · rw [if_neg hk] at h
      rw [List.cons_append, setKey, if_neg hk, ih d e t h, List.cons_append]

theorem delKey_append_fresh :
    ∀ {s : LockState} {p : String} (d : PathLockEntry) (t : LockState),
      lookup s p = none → delKey (s ++ (p, d) :: t) p = s ++ t := by
  intro s
  induction s with
  | nil => intro p d t _; simp [delKey]
  | cons y rest ih =>
    intro p d t h
    obtain ⟨k, d'⟩ := y
    rw [lookup_cons] at h
    by_cases hk : k = p
    · rw [if_pos hk] at h; cases h
    · rw [if_neg hk] at h
      rw [List.cons_append, delKey, if_neg hk, ih d t h, List.cons_append]

@[simp]
theorem pure_eq_ok {α : Type} (a : α) :
    (pure a : Except RwError α) = Except.ok a := rfl

theorem delKey_setKey (s : LockState) (p : String) (e : PathLockEntry) :
    delKey (setKey s p e) p = delKey s p := by
  induction s with
  | nil => simp [setKey, delKey]
  | cons y rest ih =>
    obtain ⟨k, d⟩ := y
    by_cases hk : k = p
    · simp [setKey, delKey, hk]
    · simp [setKey, delKey, hk, ih]

/-! Preservation of entry well-formedness by the four rwlock operations. -/

theorem WfEntry.writerEntry {pid : Int} (hpid : 0 < pid) :
    WfEntry { writer := some pid, readers := none } := by
  refine ⟨fun w hw => ?_, fun l hl => ?_, ?_⟩
  · injection hw with h
    subst h
    exact ⟨hpid, rfl⟩
  · cases hl
  · simp

theorem WfEntry.readersEntry {l : List Int} (hl : l ≠ []) :
    WfEntry { writer := none, readers := some l } := by
  refine ⟨fun w hw => ?_, fun l' hl' => ?_, ?_⟩
  · cases hw
  · injection hl' with h
    subst h
    exact ⟨hl, rfl⟩
  · simp

theorem Inv.setKeyWf {s : LockState} {p : String} {e : PathLockEntry}
    (hinv : Inv s) (he : WfEntry e) : Inv (setKey s p e) := by
  intro x hx
  rcases mem_setKey hx with h | h
  · exact hinv x h
  · subst h; exact he

theorem Inv.delKeyInv {s : LockState} (p : String) (hinv : Inv s) :
    Inv (delKey s p) := fun x hx => hinv x (mem_delKey hx)

theorem Inv.appendSingleWf {s : LockState} {p : String} {e : PathLockEntry}
    (hinv : Inv s) (he : WfEntry e) : Inv (s ++ [(p, e)]) := by
  intro x hx
  rcases List.mem_append.mp hx with h | h
  · exact hinv x h
  · rw [List.mem_singleton.mp h]; exact he

theorem inv_acquire_read :
    ∀ (paths : List String) (s s' : LockState) (pid : Int), 0 < pid →
      Inv s → _acquire_read s paths pid = Except.ok s' → Inv s' := by
  intro paths
  induction paths with
  | nil =>
    intro s s' pid _ hinv h
    rw [_acquire_read] at h
    cases h
    exact hinv
  | cons p rest ih =>
    intro s s' pid hpid hinv h
    rw [_acquire_read] at h
    cases hl : lookup s p with
    | some e =>
      obtain ⟨ew, er⟩ := e
      have hwf := hinv _ (lookup_mem hl)
      obtain ⟨hw, hr, hne⟩ := hwf
      cases hew : ew with
      | some w =>
        obtain ⟨hwpos, -⟩ := hw w (by rw [hew])
        have hw0 : ¬ w = 0 := by omega
        simp [hl, hew, _check_no_writer, pyIndex, hw0] at h
      | none =>
        cases her : er with
        | none => exact absurd ⟨by rw [hew], by rw [her]⟩ hne
        | some l =>
          obtain ⟨hlne, -⟩ := hr l (by rw [her])
          subst hew her
          simp only [hl, Option.isSome_some, if_true, _check_no_writer, pyIndex,
            pyReaders, ok_bind, pure_eq_ok] at h
          refine ih _ _ pid hpid ?_ h
          exact hinv.setKeyWf (WfEntry.readersEntry (by simp [hlne]))
    | none =>
      rw [setKey_fresh _ hl] at h
      have hlook : lookup (s ++ [(p, ({ writer := none, readers := some [] } : PathLockEntry))]) p
          = some { writer := none, readers := some [] } := by
        rw [lookup_append_fresh _ hl, lookup_cons, if_pos rfl]
      simp only [hl, Option.isSome_none, Bool.false_eq_true, if_false, pure_eq_ok,
        ok_bind, pyIndex, hlook, pyReaders, List.nil_append] at h
      rw [setKey_append_fresh _ _ _ hl] at h
      refine ih _ _ pid hpid ?_ h
      exact hinv.appendSingleWf (WfEntry.readersEntry (by simp))

theorem inv_acquire_write :
    ∀ (paths : List String) (s s' : LockState) (pid : Int), 0 < pid →
      Inv s → _acquire_write s paths pid = Except.ok s' → Inv s' := by
  intro paths
  induction paths with
  | nil =>
    intro s s' pid _ hinv h
    rw [_acquire_write] at h
    cases h
    exact hinv
  | cons p rest ih =>
    intro s s' pid hpid hinv h
    rw [_acquire_write] at h
    cases hl : lookup s p with
    | some e =>
      obtain ⟨ew, er⟩ := e
      obtain ⟨hw, hr, hne⟩ := hinv _ (lookup_mem hl)
      cases hew : ew with
      | some w =>
        obtain ⟨hwpos, -⟩ := hw w (by rw [hew])
        have hw0 : ¬ w = 0 := by omega
        simp [hl, hew, _check_no_writer, pyIndex, hw0] at h
      | none =>
        cases her : er with
        | none => exact absurd ⟨by rw [hew], by rw [her]⟩ hne
        | some l =>
          obtain ⟨hlne, -⟩ := hr l (by rw [her])
          simp [hl, hew, her, _check_no_writer, _check_no_readers, pyIndex, hlne] at h
    | none =>
      simp only [hl, Option.isSome_none, Bool.false_eq_true, if_false,
        pure_eq_ok, ok_bind] at h
      refine ih _ _ pid hpid ?_ h
      exact hinv.setKeyWf (WfEntry.writerEntry hpid)

theorem inv_release_write :
    ∀ (paths : List String) (s s' : LockState) (pid : Int), 0 < pid →
      Inv s → _release_write s paths pid = Except.ok s' → Inv s' := by
  intro paths
  induction paths with
  | nil =>
    intro s s' pid _ hinv h
    rw [_release_write] at h
    cases h
    exact hinv
  | cons p rest ih =>
    intro s s' pid hpid hinv h
    rw [_release_write] at h
    cases hl : lookup s p with
    | none =>
      rw [hl] at h
      exact ih _ _ pid hpid hinv h
    | some e =>
      obtain ⟨ew, er⟩ := e
      obtain ⟨hw, hr, hne⟩ := hinv _ (lookup_mem hl)
      rw [hl] at h
      cases hew : ew with
      | none =>
        simp [hew, pyWriter] at h
      | some w =>
        obtain ⟨hwpos, hernone⟩ := hw w (by rw [hew])
        have her : er = none := hernone
        subst hew her
        by_cases hwp : w = pid
        · simp only [pyWriter, ok_bind, if_pos hwp, entryEmpty, Option.isNone_none,
            Bool.and_self, if_true, delKey_setKey] at h
          exact ih _ _ pid hpid (hinv.delKeyInv p) h
        · simp only [pyWriter, ok_bind, if_neg hwp, entryEmpty, Option.isNone_some,
            Bool.false_and, Bool.false_eq_true, if_false, setKey_eq_self hl] at h
          exact ih _ _ pid hpid hinv h

theorem inv_release_read :
    ∀ (paths : List String) (s s' : LockState) (pid : Int), 0 < pid →
      Inv s → _release_read s paths pid = Except.ok s' → Inv s' := by
  intro paths
  induction paths with
  | nil =>
    intro s s' pid _ hinv h
    rw [_release_read] at h
    cases h
    exact hinv
  | cons p rest ih =>
    intro s s' pid hpid hinv h
    rw [_release_read] at h
    cases hl : lookup s p with
    | none =>
      rw [hl] at h
      exact ih _ _ pid hpid hinv h
    | some e =>
      obtain ⟨ew, er⟩ := e
      obtain ⟨hw, hr, hne⟩ := hinv _ (lookup_mem hl)
      rw [hl] at h
      cases her : er with
      | none =>
        simp [her, pyReaders] at h
      | some l =>
        obtain ⟨hlne, hewnone⟩ := hr l (by rw [her])
        have hew : ew = none := hewnone
        subst her hew
        simp only [pyReaders, ok_bind] at h
        set l1 := if pid ∈ l then removeFirst l pid else l with hl1
        by_cases hle : l1 = []
        · simp only [hle, if_pos rfl, entryEmpty, Option.isNone_none,
            Bool.and_self, if_true, delKey_setKey] at h
          exact ih _ _ pid hpid (hinv.delKeyInv p) h
        · simp only [if_neg hle, entryEmpty, Option.isNone_none,
            Option.isNone_some, Bool.and_false, Bool.false_eq_true, if_false] at h
          refine ih _ _ pid hpid ?_ h
          exact hinv.setKeyWf (WfEntry.readersEntry hle)

/-- Every persisted document reachable by acquire/release calls is
well-formed. -/
theorem reach_inv {s : LockState} (h : Reach s) : Inv s := by
  induction h with
  | empty => intro x hx; cases hx
  | acq s s' read write pid _ hpid hstep ih =>
    rw [rwlockAcquire] at hstep
    cases hread : _acquire_read s read pid with
    | error e => rw [hread] at hstep; cases hstep
    | ok s1 =>
      rw [hread] at hstep
      exact inv_acquire_write _ _ _ _ hpid (inv_acquire_read _ _ _ _ hpid ih hread) hstep
  | rel s s' read write pid _ hpid hstep ih =>
    rw [rwlockRelease] at hstep
    cases hrw : _release_write s write pid with
    | error e => rw [hrw] at hstep; cases hstep
    | ok s1 =>
      rw [hrw] at hstep
      exact inv_release_read _ _ _ _ hpid (inv_release_write _ _ _ _ hpid ih hrw) hstep

/-! Claim theorems. -/

/-- C1: for every lock state reachable from the empty document by acquire
and release calls, and for every path present in the persisted document,
the entry's `writer` field and its `readers` list are never both non-empty
at the same time. -/
theorem claim_C1_writer_readers_exclusive {s : LockState} (h : Reach s)
    (p : String) {e : PathLockEntry} (he : lookup s p = some e) :
    ¬(e.writer.isSome = true ∧ ∃ l, e.readers = some l ∧ l ≠ []) := by
  obtain ⟨hw, -, -⟩ := reach_inv h _ (lookup_mem he)
  rintro ⟨hsome, l, hl, -⟩
  obtain ⟨w, hw'⟩ := Option.isSome_iff_exists.mp hsome
  obtain ⟨-, hrnone⟩ := hw w hw'
  rw [hrnone] at hl
  cases hl

/-- Witness for C1 at the reachable state obtained by pid 1 acquiring a
read lock on path `a` starting from the empty document. -/
theorem claim_C1_witness :
    ¬((({ writer := none, readers := some [1] } : PathLockEntry)).writer.isSome = true ∧
      ∃ l, (({ writer := none, readers := some [1] } : PathLockEntry)).readers = some l ∧
        l ≠ []) :=
  claim_C1_writer_readers_exclusive
    (Reach.acq [] [("a", { writer := none, readers := some [1] })] ["a"] [] 1
      Reach.empty (by decide) rfl)
    "a" rfl

/-- C2: if a conflict check during one acquire call fails, the persisted
document is exactly the document loaded at the start of the call: nothing
mutated earlier in the same call is persisted, because the save in
`_rwlock` runs only at normal scope exit. -/
theorem claim_C2_acquire_all_or_nothing (doc : LockState) (read write : List String)
    (pid : Int) (err : RwError)
    (h : rwlockAcquire doc read write pid = Except.error err) :
    persistedAfterAcquire doc read write pid = doc := by
  simp only [persistedAfterAcquire, h]

/-- Witness for C2: pid 7 asks to read `a` and write `b` while pid 5 holds
the write lock on `b`; the reader registration on `a` made earlier in the
call is not persisted. -/
theorem claim_C2_witness :
    persistedAfterAcquire [("b", { writer := some 5, readers := none })] ["a"] ["b"] 7 =
      [("b", { writer := some 5, readers := none })] :=
  claim_C2_acquire_all_or_nothing _ _ _ _ (RwError.lockBusyWriter "b" 5) rfl

/-- Counterexample to C3 as stated: the state where pid 5 holds the write
lock on `X` is reachable, yet pid 7 releasing `X` as a member of its read
set raises `KeyError` (at `lock[path]["readers"]`) instead of being a
silent no-op. -/
theorem claim_C3_counterexample :
    Reach [("X", { writer := some 5, readers := none })] ∧
    rwlockRelease [("X", { writer := some 5, readers := none })] ["X"] [] 7 =
      Except.error (RwError.keyError "readers") :=
  ⟨Reach.acq [] [("X", { writer := some 5, readers := none })] [] ["X"] 5
      Reach.empty (by decide) rfl,
   rfl⟩

/-- C3 (amended): releasing a path with no entry is a silent no-op in both
modes; releasing a read path whose entry has a readers list not containing
the caller is a silent no-op; releasing a write path whose entry has a
writer other than the caller is a silent no-op.  But releasing a path held
in the other mode (read release of a writer-only entry, or write release
of a readers-only entry) raises `KeyError` rather than being a no-op. -/
theorem claim_C3_release_noop (s : LockState) (p : String) (pid : Int)
    (e : PathLockEntry) :
    (lookup s p = none → rwlockRelease s [p] [p] pid = Except.ok s) ∧
    (lookup s p = some e → ∀ l, e.readers = some l → pid ∉ l → l ≠ [] →
      _release_read s [p] pid = Except.ok s) ∧
    (lookup s p = some e → ∀ w, e.writer = some w → w ≠ pid →
      _release_write s [p] pid = Except.ok s) := by
  obtain ⟨ew, er⟩ := e
  refine ⟨fun h => ?_, fun he l hrd hnotin hlne => ?_, fun he w hwr hw => ?_⟩
  · simp [rwlockRelease, _release_write, _release_read, h]
  · simp only at hrd
    subst hrd
    simp [_release_read, he, pyReaders, hnotin, hlne, entryEmpty, setKey_eq_self he]
  · simp only at hwr
    subst hwr
    simp [_release_write, he, pyWriter, hw, entryEmpty, setKey_eq_self he]

/-- Witness for C3 (amended): all three no-op cases at concrete inputs. -/
theorem claim_C3_witness :
    rwlockRelease [("Z", { writer := some 5, readers := none })] ["Q"] ["Q"] 7 =
      Except.ok [("Z", { writer := some 5, readers := none })] ∧
    _release_read [("R", { writer := none, readers := some [3] })] ["R"] 7 =
      Except.ok [("R", { writer := none, readers := some [3] })] ∧
    _release_write [("W", { writer := some 5, readers := none })] ["W"] 7 =
      Except.ok [("W", { writer := some 5, readers := none })] :=
  ⟨(claim_C3_release_noop _ "Q" 7 { writer := none, readers := none }).1 rfl,
   (claim_C3_release_noop _ "R" 7 { writer := none, readers := some [3] }).2.1
      rfl [3] rfl (by decide) (by decide),
   (claim_C3_release_noop _ "W" 7 { writer := some 5, readers := none }).2.2
      rfl 5 rfl (by decide)⟩

/-- Counterexample to C4 as stated: a document holding valid JSON of the
wrong shape (an entry with an unknown field) makes the load raise a schema
validation error instead of healing to the empty state; only a missing
file and undecodable content are caught. -/
theorem claim_C4_counterexample :
    loadRwlockDoc (RwlockFile.parsed
        (Json.jobj [("a", Json.jobj [("pid", Json.jint 1)])])) =
      Except.error "extra keys not allowed" ∧
    loadRwlockDoc (RwlockFile.parsed (Json.jarr [])) =
      Except.error "expected a dictionary" :=
  ⟨rfl, rfl⟩

/-- C4 (amended): a missing document file or content that fails JSON
decoding is treated as the empty lock state and never raises, and a
subsequent acquire on the healed empty state succeeds and persists a
schema-valid document; but valid JSON that does not conform to the schema
raises a validation error. -/
theorem claim_C4_load_self_heals :
    loadRwlockDoc RwlockFile.missing = Except.ok [] ∧
    loadRwlockDoc RwlockFile.unparsable = Except.ok [] ∧
    ∀ (p : String) (pid : Int),
      persistedAfterAcquire [] [] [p] pid =
        [(p, { writer := some pid, readers := none })] := by
  refine ⟨rfl, rfl, fun p pid => ?_⟩
  simp [persistedAfterAcquire, rwlockAcquire, _acquire_read, _acquire_write, setKey]

/-- C5: a write acquire on a path with a truthy writer fails with the
`LockError` naming the path and that writer, and the writer conflict takes
precedence over the reader conflict even when readers are also non-empty;
when instead the writer field is absent and readers are non-empty, it
fails with the `LockError` naming the path and the readers list. -/
theorem claim_C5_writer_conflict_precedence (s : LockState) (p : String)
    (rest : List String) (pid : Int) (e : PathLockEntry)
    (he : lookup s p = some e) :
    (∀ w, e.writer = some w → w ≠ 0 →
      rwlockAcquire s [] (p :: rest) pid =
        Except.error (RwError.lockBusyWriter p w)) ∧
    (e.writer = none → ∀ l, e.readers = some l → l ≠ [] →
      rwlockAcquire s [] (p :: rest) pid =
        Except.error (RwError.lockBusyReaders p l)) := by
  constructor
  · intro w hw hw0
    simp [rwlockAcquire, _acquire_read, _acquire_write, _check_no_writer,
      _check_no_readers, pyIndex, he, hw, hw0]
  · intro hw l hl hlne
    simp [rwlockAcquire, _acquire_read, _acquire_write, _check_no_writer,
      _check_no_readers, pyIndex, he, hw, hl, hlne]

/-- Witness for C5: pid 7 write-acquiring `X`, whose entry has writer 5 and
readers `[3]`, gets the writer-conflict error; write-acquiring `Y`, whose
entry has only readers `[3]`, gets the reader-conflict error. -/
theorem claim_C5_witness :
    rwlockAcquire [("X", { writer := some 5, readers := some [3] })] [] ["X"] 7 =
      Except.error (RwError.lockBusyWriter "X" 5) ∧
    rwlockAcquire [("Y", { writer := none, readers := some [3] })] [] ["Y"] 7 =
      Except.error (RwError.lockBusyReaders "Y" [3]) :=
  ⟨(claim_C5_writer_conflict_precedence [("X", { writer := some 5, readers := some [3] })]
      "X" [] 7 { writer := some 5, readers := some [3] } rfl).1 5 rfl (by decide),
   (claim_C5_writer_conflict_precedence [("Y", { writer := none, readers := some [3] })]
      "Y" [] 7 { writer := none, readers := some [3] } rfl).2 rfl [3] rfl (by decide)⟩

/-- C6: on a (reachable) lock state, a read acquire of a path whose entry
has no truthy writer — or no entry at all — succeeds: it ensures a readers
list exists for the path and appends the caller's pid to it, and fails in
no other way for that path. -/
theorem claim_C6_read_acquire_succeeds {s : LockState} (h : Reach s)
    (p : String) (pid : Int) :
    (lookup s p = none →
      _acquire_read s [p] pid =
        Except.ok (s ++ [(p, { writer := none, readers := some [pid] })])) ∧
    (∀ e, lookup s p = some e → intTruthy e.writer = false →
      ∃ l, e.readers = some l ∧
        _acquire_read s [p] pid =
          Except.ok (setKey s p { writer := none, readers := some (l ++ [pid]) })) := by
  constructor
  · intro hl
    have hlook :
        lookup (s ++ [(p, ({ writer := none, readers := some [] } : PathLockEntry))]) p
          = some { writer := none, readers := some [] } := by
      rw [lookup_append_fresh _ hl, lookup_cons, if_pos rfl]
    simp only [_acquire_read, hl, Option.isSome_none, Bool.false_eq_true, if_false,
      pure_eq_ok, ok_bind, setKey_fresh _ hl, pyIndex, hlook, pyReaders,
      List.nil_append]
    rw [setKey_append_fresh _ _ _ hl]
  · intro e he hw
    obtain ⟨ew, er⟩ := e
    obtain ⟨hwf1, hwf2, hwf3⟩ := reach_inv h _ (lookup_mem he)
    cases hew : ew with
    | some w =>
      obtain ⟨hpos, -⟩ := hwf1 w (by rw [hew])
      rw [show ew = some w from hew] at hw
      exfalso
      simp [intTruthy] at hw
      omega
    | none =>
      cases her : er with
      | none => exact absurd ⟨by rw [hew], by rw [her]⟩ hwf3
      | some l =>
        subst hew her
        refine ⟨l, rfl, ?_⟩
        simp [_acquire_read, he, _check_no_writer, pyIndex, pyReaders]

/-- Witness for C6 at the reachable state where pid 1 reads path `a`:
pid 2 read-acquires the fresh path `b` and the already-read path `a`. -/
theorem claim_C6_witness :
    _acquire_read [("a", { writer := none, readers := some [1] })] ["b"] 2 =
      Except.ok [("a", { writer := none, readers := some [1] }),
                 ("b", { writer := none, readers := some [2] })] ∧
    ∃ l, (({ writer := none, readers := some [1] } : PathLockEntry)).readers = some l ∧
      _acquire_read [("a", { writer := none, readers := some [1] })] ["a"] 2 =
        Except.ok (setKey [("a", { writer := none, readers := some [1] })] "a"
          { writer := none, readers := some (l ++ [2]) }) :=
  ⟨(claim_C6_read_acquire_succeeds
      (Reach.acq [] [("a", { writer := none, readers := some [1] })] ["a"] [] 1
        Reach.empty (by decide) rfl) "b" 2).1 rfl,
   (claim_C6_read_acquire_succeeds
      (Reach.acq [] [("a", { writer := none, readers := some [1] })] ["a"] [] 1
        Reach.empty (by decide) rfl) "a" 2).2
      { writer := none, readers := some [1] } rfl rfl⟩

/-- C9: `Lock.lock` attempts immediate acquisition; on contention it sleeps
the fixed 5-second delay and attempts exactly once more, never a third
time; if the second attempt is also contested it fails with the fixed
`FAILED_TO_LOCK_MESSAGE` remediation message. -/
theorem claim_C9_gate_retry_policy (att : Nat → Bool) :
    DEFAULT_TIMEOUT = 5 ∧
    (Lock.lock att).attempts ≤ 2 ∧
    (att 0 = false → att 1 = false →
      Lock.lock att =
        { attempts := 2, sleeps := [DEFAULT_TIMEOUT],
          failure := some FAILED_TO_LOCK_MESSAGE }) ∧
    (att 0 = false → att 1 = true →
      Lock.lock att =
        { attempts := 2, sleeps := [DEFAULT_TIMEOUT], failure := none }) ∧
    (att 0 = true →
      Lock.lock att = { attempts := 1, sleeps := [], failure := none }) := by
  by_cases h0 : att 0 = true <;> by_cases h1 : att 1 = true <;>
    simp [Lock.lock, h0, h1, DEFAULT_TIMEOUT]

/-- Witness for C9: the always-contended gate fails after two attempts with
the fixed message; contention only on the first attempt succeeds on the
retry; a free gate succeeds immediately. -/
theorem claim_C9_witness :
    Lock.lock (fun _ => false) =
      { attempts := 2, sleeps := [DEFAULT_TIMEOUT],
        failure := some FAILED_TO_LOCK_MESSAGE } ∧
    Lock.lock (fun n => n == 1) =
      { attempts := 2, sleeps := [DEFAULT_TIMEOUT], failure := none } ∧
    Lock.lock (fun _ => true) = { attempts := 1, sleeps := [], failure := none } :=
  ⟨(claim_C9_gate_retry_policy (fun _ => false)).2.2.1 rfl rfl,
   (claim_C9_gate_retry_policy (fun n => n == 1)).2.2.2.1 rfl rfl,
   (claim_C9_gate_retry_policy (fun _ => true)).2.2.2.2 rfl⟩

/-! Characterization of acquire on fresh paths and of the matching
release, used for the acquire/release round-trip. -/

theorem lookup_map_none {q : String} :
    ∀ (paths : List String) (f : String → PathLockEntry),
      q ∉ paths → lookup (paths.map (fun p => (p, f p))) q = none := by
  intro paths
  induction paths with
  | nil => intro f _; rfl
  | cons p rest ih =>
    intro f hq
    have hpq : ¬ p = q := fun h => hq (List.mem_cons.mpr (Or.inl h.symm))
    rw [List.map_cons, lookup_cons, if_neg hpq]
    exact ih f (fun h => hq (List.mem_cons_of_mem _ h))

theorem fresh_append_single {s : LockState} {p : String} {rest : List String}
    (e : PathLockEntry) (hfresh : ∀ q ∈ rest, lookup s q = none) (hp : p ∉ rest) :
    ∀ q ∈ rest, lookup (s ++ [(p, e)]) q = none := by
  intro q hq
  have hpq : ¬ p = q := fun h => hp (by rw [h]; exact hq)
  rw [lookup_append_fresh _ (hfresh q hq), lookup_cons, if_neg hpq]
  rfl

theorem acquire_read_fresh :
    ∀ (paths : List String) (s : LockState) (pid : Int),
      (∀ p ∈ paths, lookup s p = none) → paths.Nodup →
      _acquire_read s paths pid =
        Except.ok (s ++ paths.map
          (fun p => (p, { writer := none, readers := some [pid] }))) := by
  intro paths
  induction paths with
  | nil => intro s pid _ _; simp [_acquire_read]
  | cons p rest ih =>
    intro s pid hfresh hnodup
    have hp : lookup s p = none := hfresh p (List.mem_cons_self _ _)
    have hlook :
        lookup (s ++ [(p, ({ writer := none, readers := some [] } : PathLockEntry))]) p
          = some { writer := none, readers := some [] } := by
      rw [lookup_append_fresh _ hp, lookup_cons, if_pos rfl]
    simp only [_acquire_read, hp, Option.isSome_none, Bool.false_eq_true, if_false,
      pure_eq_ok, ok_bind, setKey_fresh _ hp, pyIndex, hlook, pyReaders,
      List.nil_append]
    rw [setKey_append_fresh _ _ _ hp]
    obtain ⟨hpmem, hnrest⟩ := List.nodup_cons.mp hnodup
    have hfresh' := fresh_append_single
      ({ writer := none, readers := some [pid] } : PathLockEntry)
      (fun q hq => hfresh q (List.mem_cons_of_mem _ hq)) hpmem
    rw [ih _ pid hfresh' hnrest, List.map_cons, List.append_assoc]
    rfl

theorem acquire_write_fresh :
    ∀ (paths : List String) (s : LockState) (pid : Int),
      (∀ p ∈ paths, lookup s p = none) → paths.Nodup →
      _acquire_write s paths pid =
        Except.ok (s ++ paths.map
          (fun p => (p, { writer := some pid, readers := none }))) := by
  intro paths
  induction paths with
  | nil => intro s pid _ _; simp [_acquire_write]
  | cons p rest ih =>
    intro s pid hfresh hnodup
    have hp : lookup s p = none := hfresh p (List.mem_cons_self _ _)
    simp only [_acquire_write, hp, Option.isSome_none, Bool.false_eq_true, if_false,
      pure_eq_ok, ok_bind, setKey_fresh _ hp]
    obtain ⟨hpmem, hnrest⟩ := List.nodup_cons.mp hnodup
    have hfresh' := fresh_append_single
      ({ writer := some pid, readers := none } : PathLockEntry)
      (fun q hq => hfresh q (List.mem_cons_of_mem _ hq)) hpmem
    rw [ih _ pid hfresh' hnrest, List.map_cons, List.append_assoc]
    rfl

theorem release_write_undo :
    ∀ (paths : List String) (s : LockState) (pid : Int),
      (∀ p ∈ paths, lookup s p = none) → paths.Nodup →
      _release_write
          (s ++ paths.map (fun p => (p, { writer := some pid, readers := none })))
          paths pid = Except.ok s := by
  intro paths
  induction paths with
  | nil => intro s pid _ _; simp [_release_write]
  | cons p rest ih =>
    intro s pid hfresh hnodup
    have hp : lookup s p = none := hfresh p (List.mem_cons_self _ _)
    rw [List.map_cons]
    have hlook :
        lookup (s ++ (p, ({ writer := some pid, readers := none } : PathLockEntry)) ::
            rest.map (fun q => (q, ({ writer := some pid, readers := none } : PathLockEntry)))) p
          = some { writer := some pid, readers := none } := by
      rw [lookup_append_fresh _ hp, lookup_cons, if_pos rfl]
    simp only [_release_write, hlook, pyWriter, ok_bind, eq_self_iff_true, if_true,
      entryEmpty, Option.isNone_none, Bool.and_self, delKey_setKey]
    rw [delKey_append_fresh _ _ hp]
    obtain ⟨-, hnrest⟩ := List.nodup_cons.mp hnodup
    exact ih _ pid (fun q hq => hfresh q (List.mem_cons_of_mem _ hq)) hnrest

theorem release_read_undo :
    ∀ (paths : List String) (s : LockState) (pid : Int),
      (∀ p ∈ paths, lookup s p = none) → paths.Nodup →
      _release_read
          (s ++ paths.map (fun p => (p, { writer := none, readers := some [pid] })))
          paths pid = Except.ok s := by
  intro paths
  induction paths with
  | nil => intro s pid _ _; simp [_release_read]
  | cons p rest ih =>
    intro s pid hfresh hnodup
    have hp : lookup s p = none := hfresh p (List.mem_cons_self _ _)
    rw [List.map_cons]
    have hlook :
        lookup (s ++ (p, ({ writer := none, readers := some [pid] } : PathLockEntry)) ::
            rest.map (fun q => (q, ({ writer := none, readers := some [pid] } : PathLockEntry)))) p
          = some { writer := none, readers := some [pid] } := by
      rw [lookup_append_fresh _ hp, lookup_cons, if_pos rfl]
    simp only [_release_read, hlook, pyReaders, ok_bind, List.mem_singleton,
      eq_self_iff_true, if_true, removeFirst, entryEmpty, Option.isNone_none,
      Bool.and_self, delKey_setKey]
    rw [delKey_append_fresh _ _ hp]
    obtain ⟨-, hnrest⟩ := List.nodup_cons.mp hnodup
    exact ih _ pid (fun q hq => hfresh q (List.mem_cons_of_mem _ hq)) hnrest

/-- C7: when none of the read or write paths has an entry in the starting
document and a single process successfully acquires them, the matching
release restores the document exactly: no entry for any of those paths is
left behind. -/
theorem claim_C7_acquire_release_roundtrip (s : LockState) (read write : List String)
    (pid : Int) (hfresh : ∀ p ∈ read ++ write, lookup s p = none)
    (hnodup : (read ++ write).Nodup) (s' : LockState)
    (hacq : rwlockAcquire s read write pid = Except.ok s') :
    rwlockRelease s' read write pid = Except.ok s := by
  obtain ⟨hnr, hnw, hdisj⟩ := List.nodup_append.mp hnodup
  have hfr : ∀ p ∈ read, lookup s p = none :=
    fun p hp => hfresh p (List.mem_append_left _ hp)
  have hfw : ∀ p ∈ write, lookup s p = none :=
    fun p hp => hfresh p (List.mem_append_right _ hp)
  have hfw' : ∀ p ∈ write,
      lookup (s ++ read.map
        (fun q => (q, ({ writer := none, readers := some [pid] } : PathLockEntry)))) p
        = none := by
    intro q hq
    rw [lookup_append_fresh _ (hfw q hq)]
    exact lookup_map_none read _ (fun hmem => hdisj hmem hq)
  have hread := acquire_read_fresh read s pid hfr hnr
  have hwrite := acquire_write_fresh write _ pid hfw' hnw
  have hacq' : rwlockAcquire s read write pid =
      Except.ok ((s ++ read.map
          (fun q => (q, ({ writer := none, readers := some [pid] } : PathLockEntry)))) ++
        write.map (fun q => (q, ({ writer := some pid, readers := none } : PathLockEntry)))) := by
    rw [rwlockAcquire, hread, ok_bind, hwrite]
  have hs' := hacq.symm.trans hacq'
  injection hs' with hs'
  subst hs'
  rw [rwlockRelease, release_write_undo write _ pid hfw' hnw, ok_bind]
  exact release_read_undo read s pid hfr hnr

/-- Witness for C7: pid 7 acquires read `a` and write `b` on a document
where pid 9 holds `z`; the matching release restores the document. -/
theorem claim_C7_witness :
    rwlockRelease
        [("z", { writer := some 9, readers := none }),
         ("a", { writer := none, readers := some [7] }),
         ("b", { writer := some 7, readers := none })] ["a"] ["b"] 7 =
      Except.ok [("z", { writer := some 9, readers := none })] :=
  claim_C7_acquire_release_roundtrip
    [("z", { writer := some 9, readers := none })] ["a"] ["b"] 7
    (by decide) (by decide) _ rfl

/-! Per-path bookkeeping of `_acquire_read`: one step on a fresh path
creates a singleton readers list, one step on a registered path appends to
its readers list; the processing of the remaining paths is untouched. -/

theorem acquire_read_cons_fresh {s s' : LockState} {q : String}
    {rest : List String} {pid : Int} (hlq : lookup s q = none)
    (hok : _acquire_read s (q :: rest) pid = Except.ok s') :
    _acquire_read
        (setKey (setKey s q { writer := none, readers := some [] }) q
          { writer := none, readers := some [pid] })
        rest pid = Except.ok s' := by
  simpa only [_acquire_read, hlq, Option.isSome_none, Bool.false_eq_true, if_false,
    pure_eq_ok, ok_bind, pyIndex, lookup_setKey_self, pyReaders,
    List.nil_append] using hok

theorem acquire_read_cons_registered {s s' : LockState} {q : String}
    {rest : List String} {pid : Int} {d : PathLockEntry} {l0 : List Int}
    (hlq : lookup s q = some d) (hdr : d.readers = some l0)
    (hok : _acquire_read s (q :: rest) pid = Except.ok s') :
    _acquire_read (setKey s q { d with readers := some (l0 ++ [pid]) })
        rest pid = Except.ok s' := by
  cases hdw : d.writer with
  | none =>
    simpa only [_acquire_read, hlq, Option.isSome_some, if_true, _check_no_writer,
      pyIndex, hdw, ok_bind, pure_eq_ok, pyReaders, hdr] using hok
  | some w =>
    by_cases hw0 : w = 0
    · subst hw0
      simpa only [_acquire_read, hlq, Option.isSome_some, if_true, _check_no_writer,
        pyIndex, hdw, if_pos rfl, ok_bind, pure_eq_ok, pyReaders, hdr] using hok
    · simp [_acquire_read, hlq, _check_no_writer, pyIndex, hdw, hw0] at hok

theorem acquire_read_cons_no_readers_fails {s s' : LockState} {q : String}
    {rest : List String} {pid : Int} {d : PathLockEntry}
    (hlq : lookup s q = some d) (hdr : d.readers = none) :
    _acquire_read s (q :: rest) pid ≠ Except.ok s' := by
  intro h
  cases hdw : d.writer with
  | none => simp [_acquire_read, hlq, _check_no_writer, pyIndex, hdw, pyReaders, hdr] at h
  | some w =>
    by_cases hw0 : w = 0
    · subst hw0
      simp [_acquire_read, hlq, _check_no_writer, pyIndex, hdw, pyReaders, hdr] at h
    · simp [_acquire_read, hlq, _check_no_writer, pyIndex, hdw, hw0] at h

theorem acquire_read_readers_spec :
    ∀ (reads : List String) (s s' : LockState) (pid : Int) (p : String),
      _acquire_read s reads pid = Except.ok s' →
      ((lookup s p = none → p ∈ reads →
        ∃ e, lookup s' p = some e ∧
          e.readers = some (List.replicate (reads.count p) pid)) ∧
       (∀ e l, lookup s p = some e → e.readers = some l →
        ∃ e', lookup s' p = some e' ∧
          e'.readers = some (l ++ List.replicate (reads.count p) pid))) := by
  intro reads
  induction reads with
  | nil =>
    intro s s' pid p h
    rw [_acquire_read] at h
    injection h with h
    subst h
    refine ⟨fun _ hmem => absurd hmem (List.not_mem_nil p), fun e l he hl => ?_⟩
    exact ⟨e, he, by simp [hl]⟩
  | cons q rest ih =>
    intro s s' pid p h
    by_cases hqp : q = p
    · subst hqp
      cases hlq : lookup s q with
      | none =>
        have h2 := acquire_read_cons_fresh hlq h
        constructor
        · intro _ _
          obtain ⟨e', hl', hr'⟩ := (ih _ s' pid q h2).2
            { writer := none, readers := some [pid] } [pid]
            (lookup_setKey_self _ _ _) rfl
          refine ⟨e', hl', ?_⟩
          rw [hr']
          simp [List.count_cons_self, List.replicate_succ]
        · intro e l he _
          cases he
      | some d =>
        cases hdr : d.readers with
        | none => exact absurd h (acquire_read_cons_no_readers_fails hlq hdr)
        | some l0 =>
          have h2 := acquire_read_cons_registered hlq hdr h
          constructor
          · intro hsp _
            cases hsp
          · intro e l he hl
            rw [show e = d from by injection he with h3; exact h3.symm] at hl
            rw [hdr] at hl
            injection hl with h4
            subst h4
            obtain ⟨e', hl', hr'⟩ := (ih _ s' pid q h2).2
              { d with readers := some (l0 ++ [pid]) } (l0 ++ [pid])
              (lookup_setKey_self _ _ _) rfl
            refine ⟨e', hl', ?_⟩
            rw [hr']
            simp [List.count_cons_self, List.replicate_succ]
    · have hpq : p ≠ q := fun hh => hqp hh.symm
      have hcount : (q :: rest).count p = rest.count p := List.count_cons_of_ne hpq rest
      have hmemtail : p ∈ q :: rest → p ∈ rest := by
        intro hmem
        rcases List.mem_cons.mp hmem with h1 | h1
        · exact absurd h1.symm hqp
        · exact h1
      cases hlq : lookup s q with
      | none =>
        have h2 := acquire_read_cons_fresh hlq h
        constructor
        · intro hsp hmem
          obtain ⟨e', hl', hr'⟩ := (ih _ s' pid p h2).1
            (by rw [lookup_setKey_ne _ _ hpq, lookup_setKey_ne _ _ hpq]; exact hsp)
            (hmemtail hmem)
          exact ⟨e', hl', by rw [hr', hcount]⟩
        · intro e l he hl
          obtain ⟨e', hl', hr'⟩ := (ih _ s' pid p h2).2 e l
            (by rw [lookup_setKey_ne _ _ hpq, lookup_setKey_ne _ _ hpq]; exact he) hl
          exact ⟨e', hl', by rw [hr', hcount]⟩
      | some d =>
        cases hdr : d.readers with
        | none => exact absurd h (acquire_read_cons_no_readers_fails hlq hdr)
        | some l0 =>
          have h2 := acquire_read_cons_registered hlq hdr h
          constructor
          · intro hsp hmem
            obtain ⟨e', hl', hr'⟩ := (ih _ s' pid p h2).1
              (by rw [lookup_setKey_ne _ _ hpq]; exact hsp) (hmemtail hmem)
            exact ⟨e', hl', by rw [hr', hcount]⟩
          · intro e l he hl
            obtain ⟨e', hl', hr'⟩ := (ih _ s' pid p h2).2 e l
              (by rw [lookup_setKey_ne _ _ hpq]; exact he) hl
            exact ⟨e', hl', by rw [hr', hcount]⟩

/-- C8: reader registration is not deduplicated: an acquire whose read list
contains the same path `k` times (none hitting a writer conflict, which is
implied by overall success) appends the caller's pid to that path's readers
list exactly `k` times — `k` copies for a previously absent path, and the
old list extended by `k` copies for a present one. -/
theorem claim_C8_no_reader_dedup (reads : List String) (s s' : LockState)
    (pid : Int) (p : String) (h : _acquire_read s reads pid = Except.ok s') :
    (lookup s p = none → p ∈ reads →
      ∃ e, lookup s' p = some e ∧
        e.readers = some (List.replicate (reads.count p) pid)) ∧
    (∀ e l, lookup s p = some e → e.readers = some l →
      ∃ e', lookup s' p = some e' ∧
        e'.readers = some (l ++ List.replicate (reads.count p) pid)) :=
  acquire_read_readers_spec reads s s' pid p h

/-- Witness for C8: pid 7 submits path `a` twice in one read list starting
from the empty document and ends up registered twice. -/
theorem claim_C8_witness :
    ∃ e, lookup [("a", { writer := none, readers := some [7, 7] })] "a" = some e ∧
      e.readers = some (List.replicate ((["a", "a"]).count "a") 7) :=
  (claim_C8_no_reader_dedup ["a", "a"] []
    [("a", { writer := none, readers := some [7, 7] })] 7 "a" rfl).1 rfl
    (by decide)

/-- A write acquire over a path list containing a path whose entry has a
non-empty readers list always fails. -/
theorem acquire_write_readers_conflict :
    ∀ (writes : List String) (s : LockState) (pid : Int) (p : String),
      p ∈ writes →
      (∃ e l, lookup s p = some e ∧ e.readers = some l ∧ l ≠ []) →
      ∃ err, _acquire_write s writes pid = Except.error err := by
  intro writes
  induction writes with
  | nil => intro s pid p hmem _; exact absurd hmem (List.not_mem_nil p)
  | cons q rest ih =>
    intro s pid p hmem hbusy
    obtain ⟨e, l, he, hr, hlne⟩ := hbusy
    by_cases hqp : q = p
    · subst hqp
      cases hew : e.writer with
      | some w =>
        by_cases hw0 : w = 0
        · subst hw0
          refine ⟨RwError.lockBusyReaders q l, ?_⟩
          simp [_acquire_write, he, _check_no_writer, _check_no_readers, pyIndex,
            hew, hr, hlne]
        · refine ⟨RwError.lockBusyWriter q w, ?_⟩
          simp [_acquire_write, he, _check_no_writer, pyIndex, hew, hw0]
      | none =>
        refine ⟨RwError.lockBusyReaders q l, ?_⟩
        simp [_acquire_write, he, _check_no_writer, _check_no_readers, pyIndex,
          hew, hr, hlne]
    · have hpq : p ≠ q := fun hh => hqp hh.symm
      have hmem' : p ∈ rest := by
        rcases List.mem_cons.mp hmem with h1 | h1
        · exact absurd h1.symm hqp
        · exact h1
      have hbusy' : ∃ e' l', lookup (setKey s q { writer := some pid, readers := none }) p
          = some e' ∧ e'.readers = some l' ∧ l' ≠ [] :=
        ⟨e, l, by rw [lookup_setKey_ne _ _ hpq]; exact he, hr, hlne⟩
      cases hlq : lookup s q with
      | none =>
        obtain ⟨err, herr⟩ := ih _ pid p hmem' hbusy'
        refine ⟨err, ?_⟩
        simp only [_acquire_write, hlq, Option.isSome_none, Bool.false_eq_true,
          if_false, pure_eq_ok, ok_bind]
        exact herr
      | some d =>
        cases hcw : _check_no_writer s q with
        | error ec =>
          exact ⟨ec, by simp [_acquire_write, hlq, hcw]⟩
        | ok u =>
          cases hcr : _check_no_readers s q with
          | error ec =>
            exact ⟨ec, by simp [_acquire_write, hlq, hcw, hcr]⟩
          | ok v =>
            obtain ⟨err, herr⟩ := ih _ pid p hmem' hbusy'
            refine ⟨err, ?_⟩
            simp only [_acquire_write, hlq, Option.isSome_some, if_true, hcw,
              hcr, ok_bind]
            exact herr

/-- C10: an acquire call in which some path is both in the read set and the
write set, and free in the starting state, always fails: the read phase
registers the caller as a reader, so the write phase hits a non-empty
readers list (at that path if not earlier); in the one-path instance the
error is the reader-conflict `LockError` naming the caller's own pid. -/
theorem claim_C10_read_write_overlap_always_fails (s : LockState)
    (reads writes : List String) (pid : Int) (p : String)
    (hr : p ∈ reads) (hw : p ∈ writes) (hfree : lookup s p = none) :
    (∃ err, rwlockAcquire s reads writes pid = Except.error err) ∧
    rwlockAcquire s [p] [p] pid =
      Except.error (RwError.lockBusyReaders p [pid]) := by
  constructor
  · cases hread : _acquire_read s reads pid with
    | error e =>
      refine ⟨e, ?_⟩
      rw [rwlockAcquire, hread]
      rfl
    | ok s1 =>
      obtain ⟨e, hl1, hr1⟩ := (acquire_read_readers_spec reads s s1 pid p hread).1 hfree hr
      have hcount : 0 < reads.count p := List.count_pos_iff.mpr hr
      have hne : List.replicate (reads.count p) pid ≠ [] := by
        simp only [ne_eq, List.replicate_eq_nil_iff]
        omega
      obtain ⟨err, herr⟩ :=
        acquire_write_readers_conflict writes s1 pid p hw ⟨e, _, hl1, hr1, hne⟩
      refine ⟨err, ?_⟩
      rw [rwlockAcquire, hread, ok_bind]
      exact herr
  · have h1 : _acquire_read s [p] pid =
        Except.ok (s ++ [(p, { writer := none, readers := some [pid] })]) :=
      acquire_read_fresh [p] s pid
        (fun q hq => by
          have hqp := List.mem_singleton.mp hq
          subst hqp
          exact hfree)
        (List.nodup_singleton p)
    have hlook : lookup (s ++ [(p, ({ writer := none, readers := some [pid] } : PathLockEntry))]) p
        = some { writer := none, readers := some [pid] } := by
      rw [lookup_append_fresh _ hfree, lookup_cons, if_pos rfl]
    rw [rwlockAcquire, h1, ok_bind]
    simp [_acquire_write, hlook, _check_no_writer, _check_no_readers, pyIndex]

/-- Witness for C10: pid 7 asking to both read and write the free path `d`
fails with the reader-conflict error naming pid 7 itself. -/
theorem claim_C10_witness :
    (∃ err, rwlockAcquire [] ["d"] ["d"] 7 = Except.error err) ∧
    rwlockAcquire [] ["d"] ["d"] 7 =
      Except.error (RwError.lockBusyReaders "d" [7]) :=
  claim_C10_read_write_overlap_always_fails [] ["d"] ["d"] 7 "d"
    (by decide) (by decide) rfl

end Dvc

-- sanity checks on concrete runs of the embedded operations
example :
    Dvc.rwlockAcquire [] ["a"] [] 1 =
      Except.ok [("a", { writer := none, readers := some [1] })] := rfl

example :
    Dvc.rwlockAcquire [] [] ["b"] 2 =
      Except.ok [("b", { writer := some 2, readers := none })] := rfl

example :
    Dvc.rwlockAcquire [("b", { writer := some 5, readers := none })] [] ["b"] 7 =
      Except.error (Dvc.RwError.lockBusyWriter "b" 5) := rfl

example :
    Dvc.rwlockRelease [("a", { writer := none, readers := some [1] })] ["a"] [] 1 =
      Except.ok [] := rfl

example :
    Dvc.rwlockRelease [("X", { writer := some 5, readers := none })] ["X"] [] 7 =
      Except.error (Dvc.RwError.keyError "readers") := rfl
